import Mathlib

/-!
Verification development for the strudel-desktop repository.

Part 1 models the pattern-algebra core (spec sections 3, 4.1): rational
time arcs, haps (events), and an algebraic representation of patterns with
a query interpreter.  The pattern-engine implementation itself lives in
crates and upstream packages that are not part of this source snapshot, so
these definitions are modelled from the specification, as marked on each.

Part 2 embeds the JavaScript source files that are present in the
snapshot: the desktop-bridge code validator, the two wavetable modules'
table lookup, and the superdough ADSR helper.
-/

namespace Strudel

/-- Modelled from the spec: `Value` is a tagged union used for event
payloads (section 3).  The claims under verification only exercise string,
number and boolean payloads, so those variants are modelled. -/
inductive Value where
  | str (s : String)
  | num (n : ℚ)
  | bool (b : Bool)
deriving DecidableEq, Repr

/-- Modelled from the spec: JavaScript-style truthiness of a `Value`,
used by `struct` to decide which haps of the boolean pattern fire. -/
def Value.truthy : Value → Bool
  | .str s => s ≠ ""
  | .num n => n ≠ 0
  | .bool b => b

/-- Modelled from the spec: an `Arc` (TimeSpan) is a half-open rational
interval `[begin, stop)` in cycle time (section 3). -/
structure Arc where
  begin : ℚ
  stop : ℚ
deriving DecidableEq, Repr

/-- `x` is contained in `y` as an interval: `y.begin ≤ x.begin` and
`x.stop ≤ y.stop`. -/
def Arc.sub (x y : Arc) : Prop := y.begin ≤ x.begin ∧ x.stop ≤ y.stop

instance (x y : Arc) : Decidable (Arc.sub x y) := by
  unfold Arc.sub; infer_instance

/-- Modelled from the spec: a `Hap` is one event: optional logical extent
`whole`, visible slice `part`, and payload `value` (section 3). -/
structure Hap where
  whole : Option Arc
  part : Arc
  value : Value
deriving DecidableEq, Repr

/-- Modelled from the spec: the pattern algebra in ADT form (section 9
recommends exactly this representation).  `pure`, `silence`, binary
`stack2`, `fast`, `rev` and `struct` are direct; `slot i k p` plays
pattern `p` inside the `i`-th of `k` equal slots of every cycle and is
the building block from which `fastcat` (and the euclid step pattern)
are assembled below. -/
inductive PatternT where
  | pure (v : Value)
  | silence
  | stack2 (p q : PatternT)
  | slot (i k : ℕ) (p : PatternT)
  | fast (k : ℚ) (p : PatternT)
  | rev (p : PatternT)
  | struct (b : PatternT) (v : PatternT)

/-- Split `[b, e)` at every integer (cycle) boundary, producing the
per-cycle pieces in ascending order.  `fuel` bounds the recursion; the
wrapper `splitCycles` supplies enough fuel for all pieces. -/
def splitCyclesGo : Nat → ℚ → ℚ → List Arc
  | 0, _, _ => []
  | fuel + 1, b, e =>
    if b < e then
      let nb := min ((⌊b⌋ : ℚ) + 1) e
      ⟨b, nb⟩ :: splitCyclesGo fuel nb e
    else []

/-- Modelled from the spec: combinators that rely on per-cycle structure
split the query arc at every integer between `begin` and `end`
(section 4.1, edge cases). -/
def splitCycles (a : Arc) : List Arc :=
  splitCyclesGo ((⌈a.stop⌉ - ⌊a.begin⌋).toNat + 1) a.begin a.stop

/-- Apply a time transformation to both endpoints of an arc (used for
order-preserving maps). -/
def arcWithTime (f : ℚ → ℚ) (x : Arc) : Arc := ⟨f x.begin, f x.stop⟩

/-- Apply a time transformation to a hap's `whole` and `part`. -/
def hapWithTime (f : ℚ → ℚ) (h : Hap) : Hap :=
  ⟨h.whole.map (arcWithTime f), arcWithTime f h.part, h.value⟩

/-- Reflect an arc inside cycle `n`: time `t` maps to `2n+1 - t`, and the
endpoints swap so the result is again a half-open interval. -/
def arcReflect (n : ℚ) (x : Arc) : Arc :=
  ⟨2 * n + 1 - x.stop, 2 * n + 1 - x.begin⟩

/-- Reflect a hap's `whole` and `part` inside cycle `n`. -/
def hapReflect (n : ℚ) (h : Hap) : Hap :=
  ⟨h.whole.map (arcReflect n), arcReflect n h.part, h.value⟩

/-- Modelled from the spec: `struct` samples the value pattern at a point
in time; the sample is the first returned hap whose `part` covers the
point (section 4.1, `struct`). -/
def sampleVal (haps : List Hap) (t : ℚ) : Option Value :=
  (haps.find? fun h => decide (h.part.begin ≤ t) && decide (t < h.part.stop)).map
    (fun h => h.value)

/-- Modelled from the spec: the query interpreter for the pattern ADT
(section 4.1).  Constructor cases:
* `pure v`: one hap per cycle touched, `whole` the full cycle, `part` the
  visible piece;
* `silence`: no haps;
* `stack2`: both children's haps, in argument order;
* `slot i k p`: per cycle `[n, n+1)`, pattern `p`'s cycle `n` occupies
  `[n + i/k, n + (i+1)/k)`; the visible piece of the slot is queried from
  `p` (rescaled to `p`'s own cycle) and mapped back into the slot;
* `fast k`: query scaled up by `k`, returned times divided by `k`; the
  degenerate factors `k ≤ 0` yield no events (the public `fast` smart
  constructor rejects factor `0` with an error as the spec requires);
* `rev`: per cycle, query the mirrored arc and reflect the results back;
* `struct b v`: keep the event structure of `b`; each truthy hap of `b`
  emits the value sampled from `v` at the hap's `whole.begin`. -/
def query : PatternT → Arc → List Hap
  | .pure v, a =>
    (splitCycles a).map fun c =>
      ⟨some ⟨(⌊c.begin⌋ : ℚ), (⌊c.begin⌋ : ℚ) + 1⟩, c, v⟩
  | .silence, _ => []
  | .stack2 p q, a => query p a ++ query q a
  | .slot i k p, a =>
    (splitCycles a).flatMap fun c =>
      let n : ℚ := (⌊c.begin⌋ : ℚ)
      let sb := n + (i : ℚ) / (k : ℚ)
      let se := n + ((i : ℚ) + 1) / (k : ℚ)
      let pb := max c.begin sb
      let pe := min c.stop se
      if pb < pe then
        (query p ⟨(pb - sb) * (k : ℚ) + n, (pe - sb) * (k : ℚ) + n⟩).map
          (hapWithTime fun t => sb + (t - n) / (k : ℚ))
      else []
  | .fast k p, a =>
    if 0 < k then
      (query p ⟨a.begin * k, a.stop * k⟩).map (hapWithTime fun t => t / k)
    else []
  | .rev p, a =>
    (splitCycles a).flatMap fun c =>
      (query p (arcReflect (⌊c.begin⌋ : ℚ) c)).map (hapReflect (⌊c.begin⌋ : ℚ))
  | .struct b v, a =>
    (query b a).filterMap fun h =>
      if h.value.truthy then
        h.whole.bind fun w =>
          (sampleVal (query v ⟨w.begin, w.begin + 1⟩) w.begin).map fun x =>
            ⟨h.whole, h.part, x⟩
      else none

/-- Modelled from the spec: helper assembling the `1/k`-wide slots of a
`fastcat`, starting at slot index `i`. -/
def slotsFrom (k : ℕ) : ℕ → List PatternT → PatternT
  | _, [] => .silence
  | i, p :: rest => .stack2 (.slot i k p) (slotsFrom k (i + 1) rest)

/-- Modelled from the spec: `fastcat(p1..pk)` packs all `k` patterns into
one cycle, each occupying `1/k` (section 4.1). -/
def fastcat (ps : List PatternT) : PatternT := slotsFrom ps.length 0 ps

/-- Modelled from the spec: `stack(p1..pk)` plays all patterns
simultaneously; hap order is argument order (section 4.1). -/
def stack (ps : List PatternT) : PatternT := ps.foldr .stack2 .silence

/-- Modelled from the spec: the public `fast` combinator; `fast(0)` is an
error condition and the spec requires raising rather than returning
silence or NaN times (section 4.1, edge cases). -/
def fast (k : ℚ) (p : PatternT) : Except String PatternT :=
  if k = 0 then .error "fast: factor 0 is invalid" else .ok (.fast k p)

/-- One round of the Bjorklund pairing: groups from the front sequence are
concatenated with groups from the back sequence until the back (or the
front) runs short; the loop stops once the back holds at most one group.
`fuel` bounds the iteration count; `bjorklund` supplies `n + 1`, which is
ample since every round shrinks the total group count. -/
def bjorklundGo : Nat → List (List Bool) → List (List Bool) → List Bool
  | 0, front, back => (front ++ back).flatten
  | fuel + 1, front, back =>
    if back.length ≤ 1 ∨ front.length = 0 then (front ++ back).flatten
    else
      bjorklundGo fuel ((front.zip back).map fun pr => pr.1 ++ pr.2)
        (if front.length < back.length then back.drop front.length
         else front.drop back.length)

/-- Modelled from the spec and the strudel-core crate README: the
Bjorklund algorithm distributes `k` pulses over `n` steps as evenly as
possible, rotated left by `rot` positions; the crate's own README
documents `bjorklund(3, 8, 0) = [true,false,false,true,false,false,true,false]`.
The crate source is not part of this snapshot, so the algorithm is
modelled here. -/
def bjorklund (k n : ℕ) (rot : ℤ) : List Bool :=
  let steps := bjorklundGo (n + 1) (List.replicate k [true]) (List.replicate (n - k) [false])
  if steps.length = 0 then steps
  else
    let r := (rot % (steps.length : ℤ)).toNat
    steps.drop r ++ steps.take r

/-- Modelled from the spec: `euclid(k, n, rot)` as a pattern: a boolean
pattern of `n` steps per cycle whose steps follow the Bjorklund
distribution (section 4.1, `euclid`). -/
def euclid (k n : ℕ) (rot : ℤ) : PatternT :=
  fastcat ((bjorklund k n rot).map fun b => .pure (.bool b))

/-- Modelled from the spec: the mini-notation lowering of `"bd(3,8)"`:
`e(k,n,r)` lowers to `struct(euclid(k,n,r), e)` and the bare name `bd`
lowers to a pure string value (section 4.2, lowering rules). -/
def bd38 : PatternT := .struct (euclid 3 8 0) (.pure (.str "bd"))

/-! ## Mini-notation lexer and parser -/

/-- Modelled from the spec: the token kinds of the mini-notation grammar
(section 4.2). -/
inductive TokKind where
  | ident (s : String)
  | number (s : String)
  | lbrack | rbrack | langle | rangle | lbrace | rbrace | lparen | rparen
  | comma | pipe | star | slash | atMod | bang | colon
  | question | dquestion | percent | tilde
deriving DecidableEq, Repr

/-- A token with its source span `[b, e)` in character positions. -/
structure Tok where
  kind : TokKind
  b : Nat
  e : Nat
deriving DecidableEq, Repr

/-- Modelled from the spec: a parse error carries a position and an
expected-token set (section 4.2, parser contract). -/
structure ParseError where
  pos : Nat
  msg : String
  expected : List String
deriving Repr

/-- Modelled from the spec: the mini-notation AST; every node carries its
source span `(b, e)` (section 4.2). -/
inductive Ast where
  | atom (name : String) (b e : Nat)
  | numberA (lit : String) (b e : Nat)
  | rest (b e : Nat)
  | cat (elems : List Ast) (b e : Nat)
  | stackA (items : List Ast) (b e : Nat)
  | alt (choices : List (Ast × Option String)) (b e : Nat)
  | poly (items : List Ast) (steps : Option String) (b e : Nat)
  | slowcatA (items : List Ast) (b e : Nat)
  | fastM (x arg : Ast) (b e : Nat)
  | slowM (x arg : Ast) (b e : Nat)
  | euclidM (x k n : Ast) (rot : Option Ast) (b e : Nat)
  | weightM (x : Ast) (w : String) (b e : Nat)
  | replicateM (x : Ast) (count : String) (b e : Nat)
  | degradeM (x : Ast) (amount : Option String) (b e : Nat)
  | tailM (x : Ast) (idx : String) (b e : Nat)

/-- Start of a node's source span. -/
def Ast.spanB : Ast → Nat
  | .atom _ b _ => b
  | .numberA _ b _ => b
  | .rest b _ => b
  | .cat _ b _ => b
  | .stackA _ b _ => b
  | .alt _ b _ => b
  | .poly _ _ b _ => b
  | .slowcatA _ b _ => b
  | .fastM _ _ b _ => b
  | .slowM _ _ b _ => b
  | .euclidM _ _ _ _ b _ => b
  | .weightM _ _ b _ => b
  | .replicateM _ _ b _ => b
  | .degradeM _ _ b _ => b
  | .tailM _ _ b _ => b

/-- End of a node's source span. -/
def Ast.spanE : Ast → Nat
  | .atom _ _ e => e
  | .numberA _ _ e => e
  | .rest _ e => e
  | .cat _ _ e => e
  | .stackA _ _ e => e
  | .alt _ _ e => e
  | .poly _ _ _ e => e
  | .slowcatA _ _ e => e
  | .fastM _ _ _ e => e
  | .slowM _ _ _ e => e
  | .euclidM _ _ _ _ _ e => e
  | .weightM _ _ _ e => e
  | .replicateM _ _ _ e => e
  | .degradeM _ _ _ e => e
  | .tailM _ _ _ e => e

/-- A character that may continue an identifier (letters, digits, `-`,
per section 4.2). -/
def isIdentCont (c : Char) : Bool := c.isAlphanum || c = '-' || c = '_'

/-- Modelled from the spec: the mini-notation lexer.  Each step consumes
at least one character, so the fuel supplied by `tokenize` always
suffices; an unknown character produces an error value with its
position. -/
def lexGo : Nat → List Char → Nat → List Tok → Except ParseError (List Tok)
  | 0, _, pos, _ => .error ⟨pos, "lexer: out of fuel", []⟩
  | _ + 1, [], _, acc => .ok acc.reverse
  | fuel + 1, c :: rest, pos, acc =>
    if c = ' ' ∨ c = '\t' ∨ c = '\n' ∨ c = '\r' then lexGo fuel rest (pos + 1) acc
    else if c = '[' then lexGo fuel rest (pos + 1) (⟨.lbrack, pos, pos + 1⟩ :: acc)
    else if c = ']' then lexGo fuel rest (pos + 1) (⟨.rbrack, pos, pos + 1⟩ :: acc)
    else if c = '<' then lexGo fuel rest (pos + 1) (⟨.langle, pos, pos + 1⟩ :: acc)
    else if c = '>' then lexGo fuel rest (pos + 1) (⟨.rangle, pos, pos + 1⟩ :: acc)
    else if c = '{' then lexGo fuel rest (pos + 1) (⟨.lbrace, pos, pos + 1⟩ :: acc)
    else if c = '}' then lexGo fuel rest (pos + 1) (⟨.rbrace, pos, pos + 1⟩ :: acc)
    else if c = '(' then lexGo fuel rest (pos + 1) (⟨.lparen, pos, pos + 1⟩ :: acc)
    else if c = ')' then lexGo fuel rest (pos + 1) (⟨.rparen, pos, pos + 1⟩ :: acc)
    else if c = ',' then lexGo fuel rest (pos + 1) (⟨.comma, pos, pos + 1⟩ :: acc)
    else if c = '|' then lexGo fuel rest (pos + 1) (⟨.pipe, pos, pos + 1⟩ :: acc)
    else if c = '*' then lexGo fuel rest (pos + 1) (⟨.star, pos, pos + 1⟩ :: acc)
    else if c = '/' then lexGo fuel rest (pos + 1) (⟨.slash, pos, pos + 1⟩ :: acc)
    else if c = '@' then lexGo fuel rest (pos + 1) (⟨.atMod, pos, pos + 1⟩ :: acc)
    else if c = '!' then lexGo fuel rest (pos + 1) (⟨.bang, pos, pos + 1⟩ :: acc)
    else if c = ':' then lexGo fuel rest (pos + 1) (⟨.colon, pos, pos + 1⟩ :: acc)
    else if c = '%' then lexGo fuel rest (pos + 1) (⟨.percent, pos, pos + 1⟩ :: acc)
    else if c = '~' ∨ c = '-' then lexGo fuel rest (pos + 1) (⟨.tilde, pos, pos + 1⟩ :: acc)
    else if c = '?' then
      match rest with
      | '?' :: rest2 => lexGo fuel rest2 (pos + 2) (⟨.dquestion, pos, pos + 2⟩ :: acc)
      | _ => lexGo fuel rest (pos + 1) (⟨.question, pos, pos + 1⟩ :: acc)
    else if c.isDigit then
      let ds := rest.takeWhile fun d => d.isDigit || d = '.'
      lexGo fuel (rest.drop ds.length) (pos + 1 + ds.length)
        (⟨.number (String.mk (c :: ds)), pos, pos + 1 + ds.length⟩ :: acc)
    else if c.isAlpha ∨ c = '_' then
      let ds := rest.takeWhile isIdentCont
      lexGo fuel (rest.drop ds.length) (pos + 1 + ds.length)
        (⟨.ident (String.mk (c :: ds)), pos, pos + 1 + ds.length⟩ :: acc)
    else .error ⟨pos, "unexpected character", []⟩

/-- Tokenize a mini-notation source string. -/
def tokenize (s : String) : Except ParseError (List Tok) :=
  lexGo (s.length + 1) s.toList 0 []


/-- The mutually recursive recursive-descent entry points for the
mini-notation grammar (section 4.2), packaged as a structure so that the
whole parser is a single structural recursion over a fuel bound:
`expr` is the `alt` production, `catWeighted` a `cat` with an optional
trailing `%NUMBER` choice weight, `catNode`/`catLoop` the `element+`
production, `element`/`modLoop` an atom with its modifier chain,
`atom` the `atom` production, and `stackOrCat`/`socLoop` the
comma-separated `catList` list inside brackets. -/
structure MiniParsers where
  expr : List Tok → Nat → Except ParseError (Ast × List Tok × Nat)
  catWeighted : List Tok → Nat → Except ParseError ((Ast × Option String) × List Tok × Nat)
  altLoop : List (Ast × Option String) → List Tok → Nat →
    Except ParseError (Ast × List Tok × Nat)
  catNode : List Tok → Nat → Except ParseError (Ast × List Tok × Nat)
  catLoop : List Ast → List Tok → Nat → Except ParseError (Ast × List Tok × Nat)
  element : List Tok → Nat → Except ParseError (Ast × List Tok × Nat)
  modLoop : Ast → List Tok → Nat → Except ParseError (Ast × List Tok × Nat)
  atom : List Tok → Nat → Except ParseError (Ast × List Tok × Nat)
  stackOrCat : TokKind → String → List Tok → Nat →
    Except ParseError ((List Ast × Nat) × List Tok × Nat)
  socLoop : TokKind → String → List Ast → List Tok → Nat →
    Except ParseError ((List Ast × Nat) × List Tok × Nat)

/-- Tokens that end a `cat` (the closers, `,`, `|` and `%`). -/
def endsCat : TokKind → Bool
  | .rbrack => true
  | .rangle => true
  | .rbrace => true
  | .rparen => true
  | .comma => true
  | .pipe => true
  | .percent => true
  | _ => false

/-- Out-of-fuel parse error (only reachable on absurdly nested input;
`parse` supplies fuel proportional to the token count). -/
def fuelErr {α : Type} (lp : Nat) : Except ParseError (α × List Tok × Nat) :=
  .error ⟨lp, "parser: out of fuel", []⟩

/-- Build a finished `cat` node (or pass a single element through). -/
def finishCat (acc : List Ast) (lp : Nat) (toks : List Tok) :
    Except ParseError (Ast × List Tok × Nat) :=
  match acc with
  | [x] => .ok (x, toks, lp)
  | _ =>
    match acc.head?, acc.getLast? with
    | some hd, some tl => .ok (.cat acc hd.spanB tl.spanE, toks, lp)
    | _, _ => .error ⟨lp, "empty sequence", []⟩

/-- Modelled from the spec: the recursive-descent parser for the
mini-notation grammar of section 4.2, built level by level over a fuel
bound so that it is total by construction: every input either yields an
AST (with source spans) or an error value with position information. -/
def mkParsers : Nat → MiniParsers
  | 0 =>
    ⟨fun _ lp => fuelErr lp, fun _ lp => fuelErr lp, fun _ _ lp => fuelErr lp,
     fun _ lp => fuelErr lp, fun _ _ lp => fuelErr lp, fun _ lp => fuelErr lp,
     fun _ _ lp => fuelErr lp, fun _ lp => fuelErr lp, fun _ _ _ lp => fuelErr lp,
     fun _ _ _ _ lp => fuelErr lp⟩
  | fuel + 1 =>
    let P := mkParsers fuel
    { expr := fun toks lp => do
        let (cw, toks, lp) ← P.catWeighted toks lp
        P.altLoop [cw] toks lp
      catWeighted := fun toks lp => do
        let (c, toks, lp) ← P.catNode toks lp
        match toks with
        | ⟨.percent, _, _⟩ :: ⟨.number w, _, we⟩ :: rest => .ok ((c, some w), rest, we)
        | _ => .ok ((c, none), toks, lp)
      altLoop := fun acc toks lp =>
        match toks with
        | ⟨.pipe, _, pe⟩ :: rest => do
          let (cw, toks, lp) ← P.catWeighted rest pe
          P.altLoop (acc ++ [cw]) toks lp
        | _ =>
          match acc with
          | [(c, none)] => .ok (c, toks, lp)
          | _ =>
            match acc.head?, acc.getLast? with
            | some hd, some tl => .ok (.alt acc hd.1.spanB tl.1.spanE, toks, lp)
            | _, _ => .error ⟨lp, "empty alternation", []⟩
      catNode := fun toks lp => do
        let (e1, toks, lp) ← P.element toks lp
        P.catLoop [e1] toks lp
      catLoop := fun acc toks lp =>
        match toks with
        | [] => finishCat acc lp []
        | t :: _ =>
          if endsCat t.kind then finishCat acc lp toks
          else do
            let (el, toks2, lp2) ← P.element toks lp
            P.catLoop (acc ++ [el]) toks2 lp2
      element := fun toks lp => do
        let (a, toks, lp) ← P.atom toks lp
        P.modLoop a toks lp
      modLoop := fun x toks lp =>
        match toks with
        | ⟨.star, _, se⟩ :: rest => do
          let (f, toks, lp) ← P.element rest se
          P.modLoop (.fastM x f x.spanB f.spanE) toks lp
        | ⟨.slash, _, se⟩ :: rest => do
          let (f, toks, lp) ← P.element rest se
          P.modLoop (.slowM x f x.spanB f.spanE) toks lp
        | ⟨.lparen, _, se⟩ :: rest => do
          let (k, toks, lp) ← P.expr rest se
          match toks with
          | ⟨.comma, _, ce⟩ :: rest2 => do
            let (n, toks, lp) ← P.expr rest2 ce
            match toks with
            | ⟨.rparen, _, pe⟩ :: rest3 =>
              P.modLoop (.euclidM x k n none x.spanB pe) rest3 pe
            | ⟨.comma, _, ce2⟩ :: rest3 => do
              let (r, toks, lp) ← P.expr rest3 ce2
              match toks with
              | ⟨.rparen, _, pe⟩ :: rest4 =>
                P.modLoop (.euclidM x k n (some r) x.spanB pe) rest4 pe
              | t :: _ => .error ⟨t.b, "expected closing parenthesis", [")"]⟩
              | [] => .error ⟨lp, "unexpected end of input", [")"]⟩
            | t :: _ => .error ⟨t.b, "expected comma or closing parenthesis", [",", ")"]⟩
            | [] => .error ⟨lp, "unexpected end of input", [",", ")"]⟩
          | t :: _ => .error ⟨t.b, "expected comma", [","]⟩
          | [] => .error ⟨lp, "unexpected end of input", [","]⟩
        | ⟨.atMod, _, _⟩ :: ⟨.number w, _, we⟩ :: rest =>
          P.modLoop (.weightM x w x.spanB we) rest we
        | ⟨.atMod, ab, _⟩ :: _ => .error ⟨ab + 1, "expected a number after @", ["number"]⟩
        | ⟨.bang, _, _⟩ :: ⟨.number w, _, we⟩ :: rest =>
          P.modLoop (.replicateM x w x.spanB we) rest we
        | ⟨.bang, bb, _⟩ :: _ => .error ⟨bb + 1, "expected a number after !", ["number"]⟩
        | ⟨.colon, _, _⟩ :: ⟨.ident s, _, ie⟩ :: rest =>
          P.modLoop (.tailM x s x.spanB ie) rest ie
        | ⟨.colon, _, _⟩ :: ⟨.number s, _, ie⟩ :: rest =>
          P.modLoop (.tailM x s x.spanB ie) rest ie
        | ⟨.colon, cb, _⟩ :: _ =>
          .error ⟨cb + 1, "expected a name or number after the colon", ["ident", "number"]⟩
        | ⟨.dquestion, _, _⟩ :: ⟨.number w, _, we⟩ :: rest =>
          P.modLoop (.degradeM x (some w) x.spanB we) rest we
        | ⟨.dquestion, _, de⟩ :: rest => P.modLoop (.degradeM x none x.spanB de) rest de
        | ⟨.question, _, qe⟩ :: rest => P.modLoop (.degradeM x none x.spanB qe) rest qe
        | _ => .ok (x, toks, lp)
      atom := fun toks lp =>
        match toks with
        | [] => .error ⟨lp, "unexpected end of input", ["atom"]⟩
        | t :: rest =>
          match t.kind with
          | .ident s => .ok (.atom s t.b t.e, rest, t.e)
          | .number s => .ok (.numberA s t.b t.e, rest, t.e)
          | .tilde => .ok (.rest t.b t.e, rest, t.e)
          | .lbrack => do
            let ((items, ce), toks, lp) ← P.stackOrCat .rbrack "]" rest t.e
            match items with
            | [x] => .ok (x, toks, lp)
            | _ => .ok (.stackA items t.b ce, toks, lp)
          | .langle => do
            let ((items, ce), toks, lp) ← P.stackOrCat .rangle ">" rest t.e
            .ok (.slowcatA items t.b ce, toks, lp)
          | .lbrace => do
            let ((items, ce), toks, lp) ← P.stackOrCat .rbrace "\x7d" rest t.e
            match toks with
            | ⟨.percent, _, _⟩ :: ⟨.number w, _, we⟩ :: rest2 =>
              .ok (.poly items (some w) t.b we, rest2, we)
            | _ => .ok (.poly items none t.b ce, toks, lp)
          | _ => .error ⟨t.b, "expected an atom", ["atom"]⟩
      stackOrCat := fun closer cname toks lp => do
        let (c, toks, lp) ← P.catNode toks lp
        P.socLoop closer cname [c] toks lp
      socLoop := fun closer cname acc toks lp =>
        match toks with
        | ⟨.comma, _, ce⟩ :: rest => do
          let (c, toks, lp) ← P.catNode rest ce
          P.socLoop closer cname (acc ++ [c]) toks lp
        | t :: rest =>
          if t.kind = closer then .ok ((acc, t.e), rest, t.e)
          else .error ⟨t.b, "expected comma or closing bracket", [",", cname]⟩
        | [] => .error ⟨lp, "unexpected end of input", [cname]⟩ }

/-- Modelled from the spec: `parse` turns a mini-notation source string
into an AST with source spans, or an error value with a position and an
expected-token set; it never crashes (section 4.2, parser contract).
The strudel-mini crate implementing the production parser is not part of
this snapshot. -/
def parse (s : String) : Except ParseError Ast := do
  let toks ← tokenize s
  let P := mkParsers (5 * toks.length + 10)
  let (a, remaining, _) ← P.expr toks 0
  match remaining with
  | [] => .ok a
  | t :: _ => .error ⟨t.b, "unexpected token after expression", []⟩

/-! ## Part 2: embeddings of the JavaScript sources in the snapshot -/

/-- A JavaScript value as far as the desktop-bridge validator inspects
one: null, undefined, string, number, boolean, or an object modelled as
an association list of fields (validation.mjs). -/
inductive JSVal where
  | null
  | jsUndefined
  | str (s : String)
  | num (n : ℚ)
  | boolean (b : Bool)
  | obj (fields : List (String × JSVal))

/-- JavaScript truthiness of a `JSVal` (`!code` and `!pattern` checks in
validation.mjs). -/
def JSVal.truthy : JSVal → Bool
  | .null => false
  | .jsUndefined => false
  | .str s => s ≠ ""
  | .num n => n ≠ 0
  | .boolean b => b
  | .obj _ => true

/-- Property access `v[name]`: the field's value on objects, `undefined`
on everything else or when the field is absent (validation.mjs reads
`result.pattern` and `pattern._Pattern` this way). -/
def JSVal.getField : JSVal → String → JSVal
  | .obj fields, name => ((fields.find? fun f => f.1 = name).map fun f => f.2).getD .jsUndefined
  | _, _ => .jsUndefined

/-- A thrown JavaScript error as validation.mjs consumes it: a `message`
and an optional `stack`. -/
structure JsError where
  message : String
  stack : Option String

/-- The transpiler's result object; validation.mjs only reads `output`
(validation.mjs line 44). -/
structure Transpiled where
  output : String

/-- The object resolved by `validateStrudelCode`: `valid`, and the
optional `error` and `stack` diagnostics (validation.mjs). -/
structure ValidationResult where
  valid : Bool
  error : Option String
  stack : Option String
deriving DecidableEq

/-- From src/unnamed/part_001 (desktopbridge validation.mjs), function
`validateStrudelCode`, lines 15-71.  The imported `transpiler` and
`evaluate` live in upstream packages outside this snapshot, so they are
taken as parameters returning either a result or a thrown error.  The
JS function is async with every step inside try/catch, so it always
resolves; the embedding is correspondingly total. -/
def validateStrudelCode (transpiler : String → Except JsError Transpiled)
    (evaluate : String → Except JsError JSVal) (code : JSVal) : ValidationResult :=
  match code with
  | .str s =>
    if s = "" then ⟨false, some "Code must be a non-empty string", none⟩
    else
      match transpiler s with
      | .error err => ⟨false, some ("Syntax error: " ++ err.message), err.stack⟩
      | .ok transpiled =>
        match evaluate transpiled.output with
        | .error err => ⟨false, some ("Runtime error: " ++ err.message), err.stack⟩
        | .ok result =>
          let pattern := result.getField "pattern"
          if pattern.truthy && (pattern.getField "_Pattern").truthy then
            ⟨true, none, none⟩
          else
            ⟨false,
             some "Code did not return a Pattern object. Did you forget to call a function?",
             none⟩
  | _ => ⟨false, some "Code must be a non-empty string", none⟩

/-- The hap-value object as the wavetable modules' `getTableInfo`
destructures it: optional `s` and `wt` keys and an `n` key defaulting
to `0`; the remaining keys are only read by `valueToMidi`, which is a
parameter of the embedding. -/
structure HapValue where
  s : Option String
  wt : Option String
  n : Option ℚ

/-- JavaScript template-literal rendering of a possibly-undefined string
(an absent key prints as `undefined` in `label`). -/
def jsShow : Option String → String
  | some s => s
  | none => "undefined"

/-- The record returned by both `getTableInfo` functions. -/
structure TableInfo where
  transpose : ℚ
  tableUrl : Option String
  index : ℕ
  midi : ℚ
  label : String
deriving DecidableEq

/-- From src/unnamed/part_001, first wavetable module, `getTableInfo`
(lines 160-168): reads the hap value's `s` key for the label.
`valueToMidi` and `getSoundIndex` are imported from util.mjs, which is
outside this snapshot, so they are parameters. -/
def getTableInfo (valueToMidi : HapValue → ℚ → ℚ) (getSoundIndex : ℚ → ℕ → ℕ)
    (hapValue : HapValue) (tableUrls : List String) : TableInfo :=
  let midi := valueToMidi hapValue 36
  let transpose := midi - 36
  let index := getSoundIndex (hapValue.n.getD 0) tableUrls.length
  let tableUrl := tableUrls.get? index
  ⟨transpose, tableUrl, index, midi, jsShow hapValue.s ++ ":" ++ toString index⟩

/-- From src/unnamed/part_001, second wavetable module, `getTableInfo`
(lines 478-486): identical except the label reads the hap value's `wt`
key and the url list parameter is called `bank`. -/
def getTableInfoWt (valueToMidi : HapValue → ℚ → ℚ) (getSoundIndex : ℚ → ℕ → ℕ)
    (hapValue : HapValue) (bank : List String) : TableInfo :=
  let midi := valueToMidi hapValue 36
  let transpose := midi - 36
  let index := getSoundIndex (hapValue.n.getD 0) bank.length
  let tableUrl := bank.get? index
  ⟨transpose, tableUrl, index, midi, jsShow hapValue.wt ++ ":" ++ toString index⟩

/-- From src/packages/superdough/helpers.mjs, `getADSRValues`
(lines 106-116).  The four params are nullable numbers; `curve` is
dropped because the JS reads `curve === 'exponential' ? 0.001 : 0.001`,
which is `0.001` either way; `defaultValues`, when supplied and all four
params are null, is returned verbatim. -/
def getADSRValues (a d s r : Option ℚ) (defaultValues : Option (ℚ × ℚ × ℚ × ℚ)) :
    ℚ × ℚ × ℚ × ℚ :=
  let envmin : ℚ := 0.001
  let releaseMin : ℚ := 0.01
  let envmax : ℚ := 1
  if a = none ∧ d = none ∧ s = none ∧ r = none then
    defaultValues.getD (envmin, envmin, envmax, releaseMin)
  else
    let sustain :=
      match s with
      | some sv => sv
      | none => if (a ≠ none ∧ d = none) ∨ (a = none ∧ d = none) then envmax else envmin
    (max (a.getD 0) envmin, max (d.getD 0) envmin, min sustain envmax,
     max (r.getD 0) releaseMin)

end Strudel

namespace Strudel

/-! ## Supporting lemmas -/

theorem Arc.sub_trans {x y z : Arc} (hxy : x.sub y) (hyz : y.sub z) : x.sub z :=
  ⟨le_trans hyz.1 hxy.1, le_trans hxy.2 hyz.2⟩

theorem arcReflect_arcReflect (n : ℚ) (x : Arc) : arcReflect n (arcReflect n x) = x := by
  simp [arcReflect]

theorem hapReflect_hapReflect (n : ℚ) (h : Hap) : hapReflect n (hapReflect n h) = h := by
  cases h with
  | mk w p v =>
    simp [hapReflect, arcReflect_arcReflect]
    cases w <;> simp [arcReflect_arcReflect]

theorem arcReflect_sub {n : ℚ} {x y : Arc} (hxy : x.sub y) :
    (arcReflect n x).sub (arcReflect n y) := by
  obtain ⟨h1, h2⟩ := hxy
  exact ⟨by simp only [arcReflect]; linarith, by simp only [arcReflect]; linarith⟩

theorem splitCyclesGo_mem :
    ∀ (fuel : ℕ) (b e : ℚ) (c : Arc), c ∈ splitCyclesGo fuel b e →
      b ≤ c.begin ∧ c.stop ≤ e ∧ c.begin < c.stop ∧ c.stop ≤ (⌊c.begin⌋ : ℚ) + 1 := by
  intro fuel
  induction fuel with
  | zero => intro b e c hc; simp [splitCyclesGo] at hc
  | succ m ih =>
    intro b e c hc
    by_cases hbe : b < e
    · rw [splitCyclesGo, if_pos hbe] at hc
      rcases List.mem_cons.mp hc with rfl | htail
      · refine ⟨le_refl _, min_le_right _ _, lt_min (Int.lt_floor_add_one b) hbe, ?_⟩
        exact min_le_left _ _
      · obtain ⟨h1, h2, h3, h4⟩ := ih _ e c htail
        exact ⟨le_trans (le_min (Int.lt_floor_add_one b).le hbe.le) h1, h2, h3, h4⟩
    · rw [splitCyclesGo, if_neg hbe] at hc
      exact absurd hc (List.not_mem_nil c)

theorem splitCycles_mem {a : Arc} {c : Arc} (hc : c ∈ splitCycles a) :
    a.begin ≤ c.begin ∧ c.stop ≤ a.stop ∧ c.begin < c.stop ∧
      c.stop ≤ (⌊c.begin⌋ : ℚ) + 1 :=
  splitCyclesGo_mem _ a.begin a.stop c hc

theorem splitCyclesGo_nil {fuel : ℕ} {b e : ℚ} (h : ¬ b < e) :
    splitCyclesGo fuel b e = [] := by
  cases fuel with
  | zero => rfl
  | succ m => rw [splitCyclesGo, if_neg h]

theorem splitCycles_eq_nil {a : Arc} (h : a.stop ≤ a.begin) : splitCycles a = [] :=
  splitCyclesGo_nil (not_lt.mpr h)

theorem splitCycles_single {a : Arc} (h1 : a.begin < a.stop)
    (h2 : a.stop ≤ (⌊a.begin⌋ : ℚ) + 1) : splitCycles a = [a] := by
  simp only [splitCycles, splitCyclesGo, if_pos h1, min_eq_right h2,
    splitCyclesGo_nil (lt_irrefl a.stop)]

theorem query_empty : ∀ (p : PatternT) (a : Arc), a.stop ≤ a.begin → query p a = [] := by
  intro p
  induction p with
  | pure v => intro a ha; simp [query, splitCycles_eq_nil ha]
  | silence => intro a ha; rfl
  | stack2 p q ihp ihq => intro a ha; simp [query, ihp a ha, ihq a ha]
  | slot i k p ih => intro a ha; simp [query, splitCycles_eq_nil ha]
  | fast k p ih =>
    intro a ha
    by_cases hk : 0 < k
    · have h1 : a.stop * k ≤ a.begin * k := mul_le_mul_of_nonneg_right ha hk.le
      have h2 : query p ⟨a.begin * k, a.stop * k⟩ = [] := ih ⟨a.begin * k, a.stop * k⟩ h1
      simp [query, if_pos hk, h2]
    · simp [query, if_neg hk]
  | rev p ih => intro a ha; simp [query, splitCycles_eq_nil ha]
  | struct b v ihb ihv => intro a ha; simp [query, ihb a ha]

/-! ## Claim theorems -/

/-- C1: for every pattern `p` and query arc `a`, every hap returned by
`query p a` has its `part` contained in `a`, and whenever its `whole` is
present, the `part` is contained in the `whole`. -/
theorem query_hap_invariant :
    ∀ (p : PatternT) (a : Arc) (h : Hap), h ∈ query p a →
      h.part.sub a ∧ (∀ w, h.whole = some w → h.part.sub w) := by
  intro p
  induction p with
  | pure v =>
    intro a h hmem
    simp only [query, List.mem_map] at hmem
    obtain ⟨c, hc, rfl⟩ := hmem
    obtain ⟨h1, h2, _, h4⟩ := splitCycles_mem hc
    refine ⟨⟨h1, h2⟩, ?_⟩
    rintro w hw
    injection hw with hw
    subst hw
    exact ⟨Int.floor_le _, h4⟩
  | silence => intro a h hmem; simp [query] at hmem
  | stack2 p q ihp ihq =>
    intro a h hmem
    rcases List.mem_append.mp hmem with hm | hm
    · exact ihp a h hm
    · exact ihq a h hm
  | slot i k p ih =>
    intro a h hmem
    simp only [query, List.mem_flatMap] at hmem
    obtain ⟨c, hc, hbody⟩ := hmem
    obtain ⟨ha1, ha2, ha3, _⟩ := splitCycles_mem hc
    set n : ℚ := (⌊c.begin⌋ : ℚ) with hn
    set sb : ℚ := n + (i : ℚ) / (k : ℚ) with hsb
    set se : ℚ := n + ((i : ℚ) + 1) / (k : ℚ) with hse
    set pb : ℚ := max c.begin sb with hpb
    set pe : ℚ := min c.stop se with hpe
    by_cases hlt : pb < pe
    · rw [if_pos hlt] at hbody
      have hk : (0 : ℚ) < (k : ℚ) := by
        rcases Nat.eq_zero_or_pos k with hk0 | hkpos
        · exfalso
          apply absurd hlt
          simp only [hpb, hpe, hsb, hse, hn, hk0, Nat.cast_zero, div_zero, add_zero]
          exact not_lt.mpr (le_trans (min_le_right _ _) (le_max_right _ _))
        · exact_mod_cast hkpos
      simp only [List.mem_map] at hbody
      obtain ⟨h0, hh0, rfl⟩ := hbody
      obtain ⟨⟨hi1, hi2⟩, hiw⟩ := ih _ h0 hh0
      have hmono : ∀ u v : ℚ, u ≤ v → sb + (u - n) / (k : ℚ) ≤ sb + (v - n) / (k : ℚ) := by
        intro u v huv
        have := div_le_div_of_nonneg_right (sub_le_sub_right huv n) hk.le
        linarith
      have hgb : sb + ((pb - sb) * (k : ℚ) + n - n) / (k : ℚ) = pb := by
        field_simp
      have hge : sb + ((pe - sb) * (k : ℚ) + n - n) / (k : ℚ) = pe := by
        field_simp
      constructor
      · constructor
        · calc a.begin ≤ c.begin := ha1
            _ ≤ pb := le_max_left _ _
            _ = sb + ((pb - sb) * (k : ℚ) + n - n) / (k : ℚ) := hgb.symm
            _ ≤ sb + (h0.part.begin - n) / (k : ℚ) := hmono _ _ hi1
        · calc sb + (h0.part.stop - n) / (k : ℚ)
              ≤ sb + ((pe - sb) * (k : ℚ) + n - n) / (k : ℚ) := hmono _ _ hi2
            _ = pe := hge
            _ ≤ c.stop := min_le_left _ _
            _ ≤ a.stop := ha2
      · rintro w hw
        simp only [hapWithTime, Option.map_eq_some'] at hw
        obtain ⟨w0, hw0, rfl⟩ := hw
        obtain ⟨hj1, hj2⟩ := hiw w0 hw0
        exact ⟨hmono _ _ hj1, hmono _ _ hj2⟩
    · rw [if_neg hlt] at hbody
      exact absurd hbody (List.not_mem_nil h)
  | fast k p ih =>
    intro a h hmem
    by_cases hk : 0 < k
    · rw [query, if_pos hk] at hmem
      simp only [List.mem_map] at hmem
      obtain ⟨h0, hh0, rfl⟩ := hmem
      obtain ⟨⟨hi1, hi2⟩, hiw⟩ := ih _ h0 hh0
      have hmono : ∀ u v : ℚ, u ≤ v → u / k ≤ v / k := fun u v huv =>
        div_le_div_of_nonneg_right huv hk.le
      constructor
      · constructor
        · have := hmono _ _ hi1
          rwa [mul_div_cancel_right₀ _ hk.ne'] at this
        · have := hmono _ _ hi2
          rwa [mul_div_cancel_right₀ _ hk.ne'] at this
      · rintro w hw
        simp only [hapWithTime, Option.map_eq_some'] at hw
        obtain ⟨w0, hw0, rfl⟩ := hw
        obtain ⟨hj1, hj2⟩ := hiw w0 hw0
        exact ⟨hmono _ _ hj1, hmono _ _ hj2⟩
    · rw [query, if_neg hk] at hmem
      exact absurd hmem (List.not_mem_nil h)
  | rev p ih =>
    intro a h hmem
    simp only [query, List.mem_flatMap, List.mem_map] at hmem
    obtain ⟨c, hc, h0, hh0, rfl⟩ := hmem
    obtain ⟨ha1, ha2, _, _⟩ := splitCycles_mem hc
    obtain ⟨hi, hiw⟩ := ih _ h0 hh0
    have hpart : (arcReflect (⌊c.begin⌋ : ℚ) h0.part).sub c := by
      have := arcReflect_sub (n := (⌊c.begin⌋ : ℚ)) hi
      rwa [arcReflect_arcReflect] at this
    constructor
    · exact Arc.sub_trans hpart ⟨ha1, ha2⟩
    · rintro w hw
      simp only [hapReflect, Option.map_eq_some'] at hw
      obtain ⟨w0, hw0, rfl⟩ := hw
      exact arcReflect_sub (hiw w0 hw0)
  | struct b v ihb ihv =>
    intro a h hmem
    simp only [query, List.mem_filterMap] at hmem
    obtain ⟨h0, hh0, hf⟩ := hmem
    by_cases ht : h0.value.truthy
    · rw [if_pos ht] at hf
      cases hw0 : h0.whole with
      | none => rw [hw0] at hf; simp at hf
      | some w =>
        rw [hw0] at hf
        simp only [Option.some_bind, Option.map_eq_some'] at hf
        obtain ⟨x, _, rfl⟩ := hf
        obtain ⟨hi, hiw⟩ := ihb _ h0 hh0
        refine ⟨hi, ?_⟩
        rintro w2 hw2
        simp only [Option.some_inj] at hw2
        subst hw2
        exact hiw w hw0
    · rw [if_neg ht] at hf
      simp at hf

/-- C1 witness: the invariant instantiated at `pure("bd")` queried over
`[0,1)`, whose single hap is `whole=[0,1)`, `part=[0,1)`. -/
theorem query_hap_invariant_witness :
    Arc.sub ⟨0, 1⟩ ⟨0, 1⟩ ∧
      (∀ w, (some (⟨0, 1⟩ : Arc) = some w) → Arc.sub ⟨0, 1⟩ w) :=
  query_hap_invariant (.pure (.str "bd")) ⟨0, 1⟩
    ⟨some ⟨0, 1⟩, ⟨0, 1⟩, .str "bd"⟩ (by with_unfolding_all decide)

/-- C2: `fastcat([pure("a"), pure("b")])` queried over `[0,1)` returns
exactly the two haps `(whole=[0,1/2), part=[0,1/2), "a")` then
`(whole=[1/2,1), part=[1/2,1), "b")`, in this order. -/
theorem fastcat_two_pures :
    query (fastcat [.pure (.str "a"), .pure (.str "b")]) ⟨0, 1⟩ =
      [⟨some ⟨0, 1/2⟩, ⟨0, 1/2⟩, .str "a"⟩,
       ⟨some ⟨1/2, 1⟩, ⟨1/2, 1⟩, .str "b"⟩] := by
  with_unfolding_all decide

/-- C3: `bjorklund(3, 8, 0)` is the 8-step sequence `10010010`, and the
lowering of mini `"bd(3,8)"` queried over `[0,1)` yields exactly three
haps at cycle fractions `[0,1/8)`, `[3/8,4/8)` and `[6/8,7/8)`. -/
theorem bjorklund_euclid_spec :
    bjorklund 3 8 0 = [true, false, false, true, false, false, true, false] ∧
      query bd38 ⟨0, 1⟩ =
        [⟨some ⟨0, 1/8⟩, ⟨0, 1/8⟩, .str "bd"⟩,
         ⟨some ⟨3/8, 4/8⟩, ⟨3/8, 4/8⟩, .str "bd"⟩,
         ⟨some ⟨6/8, 7/8⟩, ⟨6/8, 7/8⟩, .str "bd"⟩] := by
  constructor
  · decide
  · with_unfolding_all decide

/-- C4: querying is deterministic and side-effect free: the model's
`query` is a pure function of the pattern and the arc, so two queries
with equal arcs return equal hap lists. -/
theorem query_deterministic (p : PatternT) (a1 a2 : Arc) (h : a1 = a2) :
    query p a1 = query p a2 := by rw [h]

/-- C4 witness: determinism instantiated at `pure("x")` over `[0,1)`. -/
theorem query_deterministic_witness :
    query (.pure (.str "x")) ⟨0, 1⟩ = query (.pure (.str "x")) ⟨0, 1⟩ :=
  query_deterministic (.pure (.str "x")) ⟨0, 1⟩ ⟨0, 1⟩ rfl

/-- Reflecting a hap list twice inside the same cycle is the identity. -/
theorem map_hapReflect_involutive (n : ℚ) (L : List Hap) :
    (L.map (hapReflect n)).map (hapReflect n) = L := by
  rw [List.map_map]
  have : ∀ h ∈ L, (hapReflect n ∘ hapReflect n) h = id h := fun h _ =>
    hapReflect_hapReflect n h
  rw [List.map_congr_left this, List.map_id]

/-- C5 counterexample: as stated, `rev(rev(p)) ≡ p` fails: for
`p = fast(1/2, pure("a"))` (that is, `slow 2`) queried over `[0,2)`,
`rev(rev(p))` returns the event split at the cycle boundary into two
haps while `p` returns a single hap. -/
theorem rev_rev_not_involutive :
    query (.rev (.rev (.fast (1/2) (.pure (.str "a"))))) ⟨0, 2⟩ ≠
      query (.fast (1/2) (.pure (.str "a"))) ⟨0, 2⟩ := by
  with_unfolding_all decide

/-- C5 (amended): `rev(rev(p))` is observationally equal to `p` on every
query arc that lies within a single cycle `[n, n+1)`; over arcs that
cross a cycle boundary the two sides can return the same events split
differently at the boundary. -/
theorem rev_rev_single_cycle (p : PatternT) (a : Arc) (n : ℤ)
    (h1 : (n : ℚ) ≤ a.begin) (h2 : a.stop ≤ (n : ℚ) + 1) :
    query (.rev (.rev p)) a = query p a := by
  by_cases hba : a.begin < a.stop
  · have hfl : ⌊a.begin⌋ = n :=
      Int.floor_eq_iff.mpr ⟨h1, lt_of_lt_of_le hba (by linarith)⟩
    have hsplit : splitCycles a = [a] :=
      splitCycles_single hba (by rw [hfl]; exact h2)
    have hba2 : (arcReflect (n : ℚ) a).begin < (arcReflect (n : ℚ) a).stop := by
      simp only [arcReflect]; linarith
    have hfl2 : ⌊(arcReflect (n : ℚ) a).begin⌋ = n := by
      apply Int.floor_eq_iff.mpr
      simp only [arcReflect]
      constructor
      · linarith
      · linarith
    have hsplit2 : splitCycles (arcReflect (n : ℚ) a) = [arcReflect (n : ℚ) a] := by
      apply splitCycles_single hba2
      rw [hfl2]
      simp only [arcReflect]
      linarith
    simp only [query]
    rw [hsplit]
    simp only [List.flatMap_cons, List.flatMap_nil, List.append_nil, hfl]
    rw [hsplit2]
    simp only [List.flatMap_cons, List.flatMap_nil, List.append_nil, hfl2,
      arcReflect_arcReflect]
    exact map_hapReflect_involutive _ _
  · have hempty : a.stop ≤ a.begin := not_lt.mp hba
    rw [query_empty _ _ hempty, query_empty _ _ hempty]

/-- C5 witness: the amended law instantiated at `pure("a")` over the
single-cycle arc `[0,1)`. -/
theorem rev_rev_single_cycle_witness :
    query (.rev (.rev (.pure (.str "a")))) ⟨0, 1⟩ =
      query (.pure (.str "a")) ⟨0, 1⟩ :=
  rev_rev_single_cycle (.pure (.str "a")) ⟨0, 1⟩ 0 (by norm_num) (by norm_num)

/-- C6: applying `fast` with factor `0` to any pattern is an error, not
silence and not NaN-valued times. -/
theorem fast_zero_is_error (p : PatternT) :
    fast 0 p = .error "fast: factor 0 is invalid" := rfl

/-- C7: `validateStrudelCode` always resolves to a result with a boolean
`valid` field; it returns `valid = true` (with no diagnostics) exactly
when the input is a non-empty string that transpiles and evaluates
without error to a result whose `pattern` field is truthy with a truthy
`_Pattern` marker; in every other case `valid = false` together with a
diagnostic `error` string. -/
theorem validateStrudelCode_spec (transpiler : String → Except JsError Transpiled)
    (evaluate : String → Except JsError JSVal) (code : JSVal) :
    ((validateStrudelCode transpiler evaluate code).valid = true ↔
      ∃ s tr res, code = .str s ∧ s ≠ "" ∧ transpiler s = .ok tr ∧
        evaluate tr.output = .ok res ∧ (res.getField "pattern").truthy = true ∧
        ((res.getField "pattern").getField "_Pattern").truthy = true) ∧
    ((validateStrudelCode transpiler evaluate code).valid = false →
      ∃ msg, (validateStrudelCode transpiler evaluate code).error = some msg) ∧
    ((validateStrudelCode transpiler evaluate code).valid = true →
      (validateStrudelCode transpiler evaluate code).error = none) := by
  cases code with
  | str s =>
    by_cases hs : s = ""
    · have hres : validateStrudelCode transpiler evaluate (.str s) =
          ⟨false, some "Code must be a non-empty string", none⟩ := by
        simp [validateStrudelCode, hs]
      rw [hres]
      refine ⟨⟨fun h => by simp at h, ?_⟩, fun _ => ⟨_, rfl⟩, fun h => by simp at h⟩
      rintro ⟨s2, tr2, res2, hcode, hne, -⟩
      injection hcode with hc
      subst hc
      exact absurd hs hne
    · cases htr : transpiler s with
      | error err =>
        have hres : validateStrudelCode transpiler evaluate (.str s) =
            ⟨false, some ("Syntax error: " ++ err.message), err.stack⟩ := by
          simp [validateStrudelCode, if_neg hs, htr]
        rw [hres]
        refine ⟨⟨fun h => by simp at h, ?_⟩, fun _ => ⟨_, rfl⟩, fun h => by simp at h⟩
        rintro ⟨s2, tr2, res2, hcode, -, htr2, -⟩
        injection hcode with hc
        subst hc
        rw [htr] at htr2
        exact Except.noConfusion htr2
      | ok tr =>
        cases hev : evaluate tr.output with
        | error err =>
          have hres : validateStrudelCode transpiler evaluate (.str s) =
              ⟨false, some ("Runtime error: " ++ err.message), err.stack⟩ := by
            simp [validateStrudelCode, if_neg hs, htr, hev]
          rw [hres]
          refine ⟨⟨fun h => by simp at h, ?_⟩, fun _ => ⟨_, rfl⟩, fun h => by simp at h⟩
          rintro ⟨s2, tr2, res2, hcode, -, htr2, hev2, -⟩
          injection hcode with hc
          subst hc
          rw [htr] at htr2
          injection htr2 with htr2
          subst htr2
          rw [hev] at hev2
          exact Except.noConfusion hev2
        | ok res =>
          by_cases hpat : ((res.getField "pattern").truthy &&
              ((res.getField "pattern").getField "_Pattern").truthy) = true
          · obtain ⟨hp1, hp2⟩ : (res.getField "pattern").truthy = true ∧
                ((res.getField "pattern").getField "_Pattern").truthy = true := by
              simpa using hpat
            have hres : validateStrudelCode transpiler evaluate (.str s) =
                ⟨true, none, none⟩ := by
              simp [validateStrudelCode, if_neg hs, htr, hev, hp1, hp2]
            rw [hres]
            exact ⟨⟨fun _ => ⟨s, tr, res, rfl, hs, htr, hev, hp1, hp2⟩, fun _ => rfl⟩,
              fun h => by simp at h, fun _ => rfl⟩
          · have hres : validateStrudelCode transpiler evaluate (.str s) =
                ⟨false,
                 some "Code did not return a Pattern object. Did you forget to call a function?",
                 none⟩ := by
              simp only [validateStrudelCode, if_neg hs, htr, hev]
              rw [if_neg hpat]
            rw [hres]
            refine ⟨⟨fun h => by simp at h, ?_⟩, fun _ => ⟨_, rfl⟩, fun h => by simp at h⟩
            rintro ⟨s2, tr2, res2, hcode, -, htr2, hev2, hp1, hp2⟩
            injection hcode with hc
            subst hc
            rw [htr] at htr2
            injection htr2 with htr2
            subst htr2
            rw [hev] at hev2
            injection hev2 with hev2
            subst hev2
            exact (hpat (by simp [hp1, hp2])).elim
  | null =>
    refine ⟨⟨fun h => by simp [validateStrudelCode] at h, ?_⟩,
      fun _ => ⟨"Code must be a non-empty string", rfl⟩, fun h => by simp [validateStrudelCode] at h⟩
    rintro ⟨s2, tr2, res2, hcode, -⟩
    exact JSVal.noConfusion hcode
  | jsUndefined =>
    refine ⟨⟨fun h => by simp [validateStrudelCode] at h, ?_⟩,
      fun _ => ⟨"Code must be a non-empty string", rfl⟩, fun h => by simp [validateStrudelCode] at h⟩
    rintro ⟨s2, tr2, res2, hcode, -⟩
    exact JSVal.noConfusion hcode
  | num n =>
    refine ⟨⟨fun h => by simp [validateStrudelCode] at h, ?_⟩,
      fun _ => ⟨"Code must be a non-empty string", rfl⟩, fun h => by simp [validateStrudelCode] at h⟩
    rintro ⟨s2, tr2, res2, hcode, -⟩
    exact JSVal.noConfusion hcode
  | boolean b =>
    refine ⟨⟨fun h => by simp [validateStrudelCode] at h, ?_⟩,
      fun _ => ⟨"Code must be a non-empty string", rfl⟩, fun h => by simp [validateStrudelCode] at h⟩
    rintro ⟨s2, tr2, res2, hcode, -⟩
    exact JSVal.noConfusion hcode
  | obj fields =>
    refine ⟨⟨fun h => by simp [validateStrudelCode] at h, ?_⟩,
      fun _ => ⟨"Code must be a non-empty string", rfl⟩, fun h => by simp [validateStrudelCode] at h⟩
    rintro ⟨s2, tr2, res2, hcode, -⟩
    exact JSVal.noConfusion hcode

/-- C7 witness: a concrete run where the evaluation result carries a
`pattern` object with a truthy `_Pattern` marker, validated as true. -/
theorem validateStrudelCode_spec_witness :
    (validateStrudelCode (fun s => .ok ⟨s⟩)
      (fun _ => .ok (.obj [("pattern", .obj [("_Pattern", .boolean true)])]))
      (.str "sound")).valid = true :=
  (validateStrudelCode_spec (fun s => .ok ⟨s⟩)
    (fun _ => .ok (.obj [("pattern", .obj [("_Pattern", .boolean true)])]))
    (.str "sound")).1.mpr
    ⟨"sound", ⟨"sound"⟩, .obj [("pattern", .obj [("_Pattern", .boolean true)])],
      rfl, by decide, rfl, rfl, by decide, by decide⟩

/-- An `Except` whose `toBool` is `true` is an `ok`. -/
theorem exists_ok_of_toBool {ε α : Type} (r : Except ε α) (h : r.toBool = true) :
    ∃ a, r = .ok a := by
  cases r with
  | error e => exact absurd h (by simp [Except.toBool, Except.isOk])
  | ok a => exact ⟨a, rfl⟩

/-- An `Except` whose `toBool` is `false` is an `error`. -/
theorem exists_error_of_toBool {ε α : Type} (r : Except ε α) (h : r.toBool = false) :
    ∃ e, r = .error e := by
  cases r with
  | error e => exact ⟨e, rfl⟩
  | ok a => exact absurd h (by simp [Except.toBool, Except.isOk])

/-- C8: the mini-notation parser is total: every input string yields
either an AST (whose nodes carry source spans) or an error value with
position information; concretely, `"bd [sd cp]*2"` and `"bd(3,8)"`
parse successfully while the unterminated `"bd [sd"` yields an error. -/
theorem parse_total :
    (∀ s : String, (∃ a, parse s = .ok a) ∨ (∃ e, parse s = .error e)) ∧
    (∃ a, parse "bd [sd cp]*2" = .ok a) ∧
    (∃ a, parse "bd(3,8)" = .ok a) ∧
    (∃ e, parse "bd [sd" = .error e) := by
  refine ⟨fun s => ?_, ?_, ?_, ?_⟩
  · cases h : parse s with
    | error e => exact .inr ⟨e, rfl⟩
    | ok a => exact .inl ⟨a, rfl⟩
  · exact exists_ok_of_toBool _ (by decide)
  · exact exists_ok_of_toBool _ (by decide)
  · exact exists_error_of_toBool _ (by decide)

/-- C9: the two wavetable modules' `getTableInfo` functions agree on
`transpose`, `midi`, `index` and `tableUrl` for every hap value and url
list, and their labels are built identically except that the first reads
the hap value's `s` key while the second reads its `wt` key. -/
theorem getTableInfo_equiv (valueToMidi : HapValue → ℚ → ℚ)
    (getSoundIndex : ℚ → ℕ → ℕ) (hapValue : HapValue) (urls : List String) :
    (getTableInfo valueToMidi getSoundIndex hapValue urls).transpose =
      (getTableInfoWt valueToMidi getSoundIndex hapValue urls).transpose ∧
    (getTableInfo valueToMidi getSoundIndex hapValue urls).midi =
      (getTableInfoWt valueToMidi getSoundIndex hapValue urls).midi ∧
    (getTableInfo valueToMidi getSoundIndex hapValue urls).index =
      (getTableInfoWt valueToMidi getSoundIndex hapValue urls).index ∧
    (getTableInfo valueToMidi getSoundIndex hapValue urls).tableUrl =
      (getTableInfoWt valueToMidi getSoundIndex hapValue urls).tableUrl ∧
    (getTableInfo valueToMidi getSoundIndex hapValue urls).label =
      jsShow hapValue.s ++ ":" ++
        toString (getTableInfo valueToMidi getSoundIndex hapValue urls).index ∧
    (getTableInfoWt valueToMidi getSoundIndex hapValue urls).label =
      jsShow hapValue.wt ++ ":" ++
        toString (getTableInfoWt valueToMidi getSoundIndex hapValue urls).index :=
  ⟨rfl, rfl, rfl, rfl, rfl, rfl⟩

/-- C10 counterexample: when a `defaultValues` argument is supplied and
all four parameters are null, the defaults are returned verbatim, so the
claimed bound `attack ≥ 0.001` fails at `defaultValues = [0,0,0,0]`. -/
theorem getADSRValues_defaults_verbatim :
    getADSRValues none none none none (some (0, 0, 0, 0)) = (0, 0, 0, 0) ∧
      ¬ ((0.001 : ℚ) ≤ (getADSRValues none none none none (some (0, 0, 0, 0))).1) := by
  constructor
  · rfl
  · intro h
    rw [show (getADSRValues none none none none (some (0, 0, 0, 0))).1 = 0 from rfl] at h
    norm_num at h

/-- C10 (amended): whenever `defaultValues` is not supplied, or at least
one of the four parameters is non-null, the result satisfies
`attack ≥ 0.001`, `decay ≥ 0.001`, `sustain ≤ 1` and `release ≥ 0.01`;
and with all four parameters null and no `defaultValues` it is exactly
`[0.001, 0.001, 1, 0.01]`. -/
theorem getADSRValues_bounds (a d s r : Option ℚ) (dv : Option (ℚ × ℚ × ℚ × ℚ))
    (hdv : dv = none ∨ ¬(a = none ∧ d = none ∧ s = none ∧ r = none)) :
    ((0.001 : ℚ) ≤ (getADSRValues a d s r dv).1 ∧
      (0.001 : ℚ) ≤ (getADSRValues a d s r dv).2.1 ∧
      (getADSRValues a d s r dv).2.2.1 ≤ 1 ∧
      (0.01 : ℚ) ≤ (getADSRValues a d s r dv).2.2.2) ∧
    getADSRValues none none none none none = (0.001, 0.001, 1, 0.01) := by
  refine ⟨?_, rfl⟩
  by_cases hall : a = none ∧ d = none ∧ s = none ∧ r = none
  · have hdvn : dv = none := by
      rcases hdv with h | h
      · exact h
      · exact absurd hall h
    subst hdvn
    obtain ⟨ha, hd, hss, hr⟩ := hall
    subst ha; subst hd; subst hss; subst hr
    have hres : getADSRValues none none none none none = (0.001, 0.001, 1, 0.01) := rfl
    rw [hres]
    refine ⟨le_refl _, le_refl _, le_refl _, le_refl _⟩
  · rw [getADSRValues.eq_def, if_neg hall]
    exact ⟨le_max_right _ _, le_max_right _ _, min_le_right _ _, le_max_right _ _⟩

/-- C10 witness: the bounds instantiated at a decay-only envelope with no
`defaultValues`. -/
theorem getADSRValues_bounds_witness :
    (0.001 : ℚ) ≤ (getADSRValues none (some (1/2)) none none none).1 ∧
      (0.001 : ℚ) ≤ (getADSRValues none (some (1/2)) none none none).2.1 ∧
      (getADSRValues none (some (1/2)) none none none).2.2.1 ≤ 1 ∧
      (0.01 : ℚ) ≤ (getADSRValues none (some (1/2)) none none none).2.2.2 :=
  (getADSRValues_bounds none (some (1/2)) none none none (Or.inl rfl)).1

end Strudel
